import Mathlib

/-!
Verification of the data-service record store and batch-processing engine
(`services/data-service/main.go`).

The embedding models:
- `DataRecord` / `ProcessingJob`: the two entities (time instants as `Int`
  nanoseconds, as in Go's `time.Time` wall clock).
- The bolt "records" bucket as an association list in key order
  (`Store`); bolt cursors scan in key order, so list order is scan order.
- Stored values as `StoredVal`: either well-formed serialized records
  (`good`) or bytes that fail `json.Unmarshal` (`corrupt`); `unmarshal`
  models deserialization.
- The HTTP handlers and background loops as pure state transformers.
  Storage-medium failures (bolt transaction errors) are outside the model:
  every `put`/`delete` is modelled as succeeding.
-/

/-- A data record, mirroring the Go `DataRecord` struct. `Data` is the
payload map (modelled as an association list), `Timestamp`/`ProcessedAt`
are wall-clock instants in nanoseconds. -/
structure DataRecord where
  ID : String
  /-- the Go field is named `Type` (a Lean keyword) -/
  Typ : String
  Data : List (String × String)
  Timestamp : Int
  Processed : Bool
  ProcessedAt : Option Int
deriving Repr, DecidableEq

/-- A value stored in the records bucket: serialized bytes that either
deserialize to a record or fail to. -/
inductive StoredVal where
  | good (r : DataRecord)
  | corrupt (bytes : String)
deriving Repr, DecidableEq

/-- Models `json.Unmarshal` on a stored value. -/
def unmarshal : StoredVal → Option DataRecord
  | .good r => some r
  | .corrupt _ => none

/-- The records bucket: entries in bolt key order. -/
abbrev Store := List (String × StoredVal)

/-- String order through the underlying character lists: core's
`String.decidableLT` is an iterator loop the kernel cannot unfold, while
this instance keeps every store operation kernel-computable. -/
instance (priority := 2000) decStrLt (a b : String) : Decidable (a < b) :=
  decidable_of_iff (a.toList < b.toList) String.lt_iff_toList_lt.symm

/-- Bolt `bucket.Get`: point lookup by key. -/
def bGet (k : String) : Store → Option StoredVal
  | [] => none
  | (k', v) :: rest => if k = k' then some v else bGet k rest

/-- Bolt `bucket.Put`: write or overwrite the entry for `k`, keeping the
bucket in key order. -/
def bPut (k : String) (v : StoredVal) : Store → Store
  | [] => [(k, v)]
  | (k', v') :: rest =>
    if k < k' then (k, v) :: (k', v') :: rest
    else if k = k' then (k, v) :: rest
    else (k', v') :: bPut k v rest

/-- Bolt `bucket.Delete`: remove the entry for `k` (no-op when absent). -/
def bDelete (k : String) (s : Store) : Store :=
  s.filter (fun kv => kv.1 ≠ k)

/-- The `createRecordHandler` body after a successful JSON decode of the
request body into `input`: the handler overwrites `ID`, `Timestamp` and
`Processed` (but no other field), persists the record under its fresh id,
and returns it. `freshId` is the generated UUID, `now` the server time. -/
def createRecordHandler (freshId : String) (now : Int) (input : DataRecord)
    (s : Store) : DataRecord × Store :=
  let record := { input with ID := freshId, Timestamp := now, Processed := false }
  (record, bPut record.ID (.good record) s)

/-- The `getRecordHandler` body: point lookup, then `json.Unmarshal`;
a missing key or a failed unmarshal both surface as a not-found error
(`none`). -/
def getRecordHandler (recordID : String) (s : Store) : Option DataRecord :=
  match bGet recordID s with
  | none => none
  | some v => unmarshal v

/-- The fetch loop of `processPendingRecords`, with `cap` the remaining
batch capacity (`batchSize - len(records)`): scan entries in key order,
skip values that fail to unmarshal and records already processed, collect
pending records, and stop as soon as the batch is full. -/
def selectPendingAux : Nat → Store → List DataRecord
  | _, [] => []
  | 0, _ :: _ => []
  | cap + 1, (_, v) :: rest =>
    match unmarshal v with
    | none => selectPendingAux (cap + 1) rest
    | some r =>
      if r.Processed then selectPendingAux (cap + 1) rest
      else r :: selectPendingAux cap rest

/-- The fetch phase of `processPendingRecords`: the Go loop guard is
`len(records) < batchSize`, so a non-positive `batchSize` selects
nothing. -/
def selectPending (batchSize : Int) (s : Store) : List DataRecord :=
  selectPendingAux batchSize.toNat s

/-- Marking one record processed: `record.Processed = true`,
`record.ProcessedAt = &now`. -/
def markProcessed (r : DataRecord) (now : Int) : DataRecord :=
  { r with Processed := true, ProcessedAt := some now }

/-- The processing loop of `processPendingRecords`: each selected record
is marked processed (with its own `time.Now()`, modelled as `nows i` for
the i-th record) and persisted back under its own id, one `put`
transaction per record. -/
def markRecords (nows : Nat → Int) : List DataRecord → Nat → Store → Store
  | [], _, s => s
  | r :: rs, i, s =>
    markRecords nows rs (i + 1) (bPut r.ID (.good (markProcessed r (nows i))) s)

/-- `processPendingRecords(batchSize)`: fetch up to `batchSize` pending
records in key order; if none were selected return immediately leaving
the store untouched, otherwise mark each selected record processed and
persist it. -/
def processPendingRecords (batchSize : Int) (nows : Nat → Int) (s : Store) : Store :=
  let records := selectPending batchSize s
  if records.isEmpty then s
  else markRecords nows records 0 s

/-- The aggregation loop of `dataMetricsHandler`: scan all entries,
`continue` past values that fail to unmarshal, and count
(total, processed, pending) over the rest. -/
def dataMetricsCounts : Store → Nat × Nat × Nat
  | [] => (0, 0, 0)
  | (_, v) :: rest =>
    match unmarshal v with
    | none => dataMetricsCounts rest
    | some r =>
      let c := dataMetricsCounts rest
      (c.1 + 1, if r.Processed then c.2.1 + 1 else c.2.1,
        if r.Processed then c.2.2 else c.2.2 + 1)

/-- 24 hours in nanoseconds (`24 * time.Hour`). -/
def hours24 : Int := 24 * 3600 * 1000000000

/-- The sweep loop of `cleanupOldRecords`: iterate over the snapshot of
entries `l`, skip values that fail to unmarshal, delete from the store
each record whose timestamp is strictly before the cutoff, and count
deletions. -/
def sweep (cutoff : Int) : List (String × StoredVal) → Store → Nat × Store
  | [], s => (0, s)
  | (k, v) :: rest, s =>
    match unmarshal v with
    | none => sweep cutoff rest s
    | some r =>
      if r.Timestamp < cutoff then
        let p := sweep cutoff rest (bDelete k s)
        (p.1 + 1, p.2)
      else sweep cutoff rest s

/-- `cleanupOldRecords`: the cutoff defaults to `now − 24h` when the
`cutoff` query parameter is absent or fails to parse (`parsedCutoff =
none` models both); otherwise the parsed instant is used. Returns
(deleted count, effective cutoff, resulting store) — the handler's JSON
response carries the count and the cutoff. -/
def cleanupOldRecords (parsedCutoff : Option Int) (now : Int) (s : Store) :
    Nat × Int × Store :=
  let cutoffTime := parsedCutoff.getD (now - hours24)
  let p := sweep cutoffTime s s
  (p.1, cutoffTime, p.2)

/-- A processing job, mirroring the Go `ProcessingJob` struct. -/
structure ProcessingJob where
  ID : String
  Status : String
  StartTime : Int
  EndTime : Option Int
  Records : Int
  Error : String
deriving Repr, DecidableEq

/-- The in-memory `jobs` map. -/
abbrev JobMap := List (String × ProcessingJob)

/-- Lookup in the jobs map. -/
def jGet (k : String) : JobMap → Option ProcessingJob
  | [] => none
  | (k', v) :: rest => if k = k' then some v else jGet k rest

/-- `jobs[id] = job`: overwrite when present, insert otherwise. -/
def jPut (k : String) (v : ProcessingJob) : JobMap → JobMap
  | [] => [(k, v)]
  | (k', v') :: rest =>
    if k = k' then (k, v) :: rest else (k', v') :: jPut k v rest

/-- `createJobHandler`: allocate a job in status `pending` with zero
records, register it, and return it (the asynchronous run is modelled
separately by `processJob`). -/
def createJobHandler (freshId : String) (now : Int) (jm : JobMap) :
    ProcessingJob × JobMap :=
  let job : ProcessingJob :=
    { ID := freshId, Status := "pending", StartTime := now,
      EndTime := none, Records := 0, Error := "" }
  (job, jPut job.ID job jm)

/-- `processJob`: the asynchronous run of a job. It flips the job to
`running`, invokes `processPendingRecords(20)` once, then marks the job
`completed` with `EndTime = now` and `Records = 20` — the Go source
assigns the literal `20` (`// Simplified for demo`), not the number of
records the batch actually processed. -/
def processJob (jobID : String) (now : Int) (nows : Nat → Int)
    (jm : JobMap) (s : Store) : JobMap × Store :=
  match jGet jobID jm with
  | none => (jm, s)
  | some job =>
    let job1 := { job with Status := "running" }
    let jm1 := jPut jobID job1 jm
    let s1 := processPendingRecords 20 nows s
    let job2 := { job1 with Status := "completed", EndTime := some now, Records := 20 }
    (jPut jobID job2 jm1, s1)

/-! ### Observations on stores -/

/-- A stored value holding a pending (decodable, unprocessed) record. -/
def isPendingVal (v : StoredVal) : Bool :=
  match unmarshal v with
  | some r => !r.Processed
  | none => false

/-- A stored value holding a processed record. -/
def isProcessedVal (v : StoredVal) : Bool :=
  match unmarshal v with
  | some r => r.Processed
  | none => false

/-- Number of pending records in the store. -/
def pendingCount (s : Store) : Nat := s.countP (fun kv => isPendingVal kv.2)

/-- Number of processed records in the store. -/
def processedCount (s : Store) : Nat := s.countP (fun kv => isProcessedVal kv.2)

/-- The pending records of the store, in scan (key) order. -/
def pendingList (s : Store) : List DataRecord :=
  s.filterMap (fun kv =>
    match unmarshal kv.2 with
    | some r => if r.Processed then none else some r
    | none => none)

/-- A stored value the sweep deletes: decodable with timestamp strictly
before the cutoff. -/
def isOldVal (cutoff : Int) (v : StoredVal) : Bool :=
  match unmarshal v with
  | some r => decide (r.Timestamp < cutoff)
  | none => false

/-- Entries the metrics aggregation counts at all: those that
deserialize. -/
def totalCount (s : Store) : Nat := s.countP (fun kv => (unmarshal kv.2).isSome)

/-- Keys are strictly increasing (bolt buckets are key-ordered with
unique keys). -/
def SortedKeys (s : Store) : Prop := s.Pairwise (fun a b => a.1 < b.1)

/-- No two entries share a key. -/
def NodupKeys (s : Store) : Prop := (s.map Prod.fst).Nodup

/-- Every decodable entry is stored under its record's id (all writers
`put` at `record.ID`). -/
def IdKeyed (s : Store) : Prop :=
  ∀ kv ∈ s, ∀ r, unmarshal kv.2 = some r → r.ID = kv.1

/-- Store well-formedness: key-ordered and id-keyed. -/
def WFStore (s : Store) : Prop := SortedKeys s ∧ IdKeyed s

instance : DecidablePred SortedKeys := fun s =>
  inferInstanceAs (Decidable (s.Pairwise _))

instance instDecIdOk (kv : String × StoredVal) :
    Decidable (∀ r, unmarshal kv.2 = some r → r.ID = kv.1) := by
  obtain ⟨k, v⟩ := kv
  cases v with
  | corrupt b => exact .isTrue (by intro r hr; simp [unmarshal] at hr)
  | good r0 =>
    by_cases h : r0.ID = k
    · exact .isTrue (by intro r hr; simp [unmarshal] at hr; subst hr; exact h)
    · exact .isFalse (by intro hall; exact h (hall r0 rfl))

instance : DecidablePred IdKeyed := fun s =>
  List.decidableBAll _ s

instance : DecidablePred WFStore := fun s =>
  inferInstanceAs (Decidable (_ ∧ _))

instance : DecidablePred NodupKeys := fun s =>
  inferInstanceAs (Decidable (List.Nodup _))

/-- One public operation on the records bucket: create a record (with a
freshly generated id, hence one not present in the store, and a decoded
request body satisfying `P`), a Batch Processor invocation (the recurring
tick), a job run (which invokes the Batch Processor with the on-demand
batch size 20), or a cleanup sweep. -/
inductive StoreStep (P : DataRecord → Prop) : Store → Store → Prop where
  | create (freshId : String) (now : Int) (input : DataRecord) (s : Store)
      (hfresh : bGet freshId s = none) (hP : P input) :
      StoreStep P s (createRecordHandler freshId now input s).2
  | batch (batchSize : Int) (nows : Nat → Int) (s : Store) :
      StoreStep P s (processPendingRecords batchSize nows s)
  | jobRun (nows : Nat → Int) (s : Store) :
      StoreStep P s (processPendingRecords 20 nows s)
  | cleanup (parsedCutoff : Option Int) (now : Int) (s : Store) :
      StoreStep P s (cleanupOldRecords parsedCutoff now s).2.2

/-- Stores reachable from the empty bucket through the public
operations. -/
inductive Reachable (P : DataRecord → Prop) : Store → Prop where
  | init : Reachable P []
  | step {s s' : Store} : Reachable P s → StoreStep P s s' → Reachable P s'


/-! ### Basic store lemmas -/

theorem bGet_bPut_self (k : String) (v : StoredVal) (s : Store) :
    bGet k (bPut k v s) = some v := by
  induction s with
  | nil => simp [bPut, bGet]
  | cons kv rest ih =>
    obtain ⟨k', v'⟩ := kv
    by_cases h1 : k < k'
    · simp [bPut, h1, bGet]
    · by_cases h2 : k = k'
      · simp [bPut, h1, h2, bGet]
      · simp [bPut, h1, h2, bGet, ih]

theorem bGet_bPut_ne (k k2 : String) (v : StoredVal) (s : Store) (hne : k ≠ k2) :
    bGet k (bPut k2 v s) = bGet k s := by
  induction s with
  | nil => simp [bPut, bGet, hne]
  | cons kv rest ih =>
    obtain ⟨k', v'⟩ := kv
    by_cases h1 : k2 < k'
    · simp [bPut, h1, bGet, hne]
    · by_cases h2 : k2 = k'
      · subst h2
        simp [bPut, h1, bGet, hne]
      · by_cases h3 : k = k'
        · simp [bPut, h1, h2, bGet, h3]
        · simp [bPut, h1, h2, bGet, h3, ih]

theorem mem_bPut (kv : String × StoredVal) (k : String) (v : StoredVal) (s : Store)
    (h : kv ∈ bPut k v s) : kv = (k, v) ∨ kv ∈ s := by
  induction s with
  | nil => simpa [bPut] using h
  | cons kv' rest ih =>
    obtain ⟨k', v'⟩ := kv'
    by_cases h1 : k < k'
    · simp [bPut, h1] at h
      rcases h with h | h | h
      · exact .inl h
      · exact .inr (by simp [h])
      · exact .inr (by simp [h])
    · by_cases h2 : k = k'
      · subst h2
        simp [bPut, h1] at h
        rcases h with h | h
        · exact .inl h
        · exact .inr (by simp [h])
      · simp [bPut, h1, h2] at h
        rcases h with h | h
        · exact .inr (by simp [h])
        · rcases ih h with h' | h'
          · exact .inl h'
          · exact .inr (by simp [h'])

theorem mem_bDelete (kv : String × StoredVal) (k : String) (s : Store)
    (h : kv ∈ bDelete k s) : kv ∈ s :=
  List.mem_of_mem_filter h

/-! ### The fetch loop as a take of the pending records -/

theorem selectPendingAux_eq_take (cap : Nat) (s : Store) :
    selectPendingAux cap s = (pendingList s).take cap := by
  induction s generalizing cap with
  | nil => cases cap <;> simp [selectPendingAux, pendingList]
  | cons kv rest ih =>
    obtain ⟨k, v⟩ := kv
    cases cap with
    | zero => simp [selectPendingAux]
    | succ c =>
      cases hv : unmarshal v with
      | none => simp [selectPendingAux, hv, pendingList, ih]
      | some r =>
        by_cases hp : r.Processed
        · simp [selectPendingAux, hv, hp, pendingList, ih]
        · simp [selectPendingAux, hv, hp, pendingList, ih c]

theorem pendingCount_eq_length (s : Store) :
    pendingCount s = (pendingList s).length := by
  induction s with
  | nil => rfl
  | cons kv rest ih =>
    obtain ⟨k, v⟩ := kv
    unfold pendingCount pendingList at *
    simp only [isPendingVal] at ih ⊢
    rw [List.countP_cons, List.filterMap_cons]
    cases hv : unmarshal v with
    | none => simp [hv, ih]
    | some r =>
      by_cases hp : r.Processed <;> simp [hv, hp, ih]

/-! ### The sweep loop characterized -/

theorem sweep_fst (cutoff : Int) (l : List (String × StoredVal)) (s : Store) :
    (sweep cutoff l s).1 = l.countP (fun kv => isOldVal cutoff kv.2) := by
  induction l generalizing s with
  | nil => simp [sweep]
  | cons kv rest ih =>
    obtain ⟨k, v⟩ := kv
    rw [List.countP_cons]
    cases hv : unmarshal v with
    | none => simp [sweep, hv, isOldVal, ih]
    | some r =>
      by_cases ht : r.Timestamp < cutoff <;> simp [sweep, hv, isOldVal, ht, ih]

theorem nodupKeys_unique (s : Store) (h : NodupKeys s) (k : String)
    (a b : StoredVal) (ha : (k, a) ∈ s) (hb : (k, b) ∈ s) : a = b := by
  induction s with
  | nil => cases ha
  | cons kv rest ih =>
    obtain ⟨k0, v0⟩ := kv
    unfold NodupKeys at h
    rw [List.map_cons, List.nodup_cons] at h
    rcases List.mem_cons.mp ha with ha' | ha' <;>
      rcases List.mem_cons.mp hb with hb' | hb'
    · injection ha' with hk1 hv1
      injection hb' with hk2 hv2
      rw [hv1, hv2]
    · injection ha' with hk1 hv1
      subst hk1
      exact absurd (List.mem_map_of_mem Prod.fst hb') h.1
    · injection hb' with hk2 hv2
      subst hk2
      exact absurd (List.mem_map_of_mem Prod.fst ha') h.1
    · exact ih h.2 ha' hb'

theorem sweep_snd (cutoff : Int) (l : List (String × StoredVal)) (s : Store)
    (hag : ∀ kv ∈ l, ∀ v', (kv.1, v') ∈ s → v' = kv.2) :
    (sweep cutoff l s).2 =
      s.filter (fun kv =>
        !(isOldVal cutoff kv.2 && decide (kv.1 ∈ l.map Prod.fst))) := by
  induction l generalizing s with
  | nil => simp [sweep]
  | cons hd rest ih =>
    obtain ⟨k, v⟩ := hd
    have hagrest : ∀ kv ∈ rest, ∀ v', (kv.1, v') ∈ s → v' = kv.2 := by
      intro kv hkv v' hv'
      exact hag kv (List.mem_cons_of_mem _ hkv) v' hv'
    cases hv : unmarshal v with
    | none =>
      rw [show sweep cutoff ((k, v) :: rest) s = sweep cutoff rest s by
        simp [sweep, hv]]
      rw [ih s hagrest]
      refine List.filter_congr ?_
      intro kv hkv
      by_cases hk : kv.1 = k
      · have : kv.2 = v := hag (k, v) (List.mem_cons_self _ _) kv.2 (by rw [← hk]; exact hkv)
        simp [this, isOldVal, hv]
      · have hbeq : (kv.1 == k) = false := beq_eq_false_iff_ne.mpr hk
        simp [hbeq, hk]
    | some r =>
      by_cases ht : r.Timestamp < cutoff
      · have hstep : (sweep cutoff ((k, v) :: rest) s).2 =
            (sweep cutoff rest (bDelete k s)).2 := by
          simp [sweep, hv, ht]
        rw [hstep]
        have hagdel : ∀ kv ∈ rest, ∀ v', (kv.1, v') ∈ bDelete k s → v' = kv.2 := by
          intro kv hkv v' hv'
          exact hagrest kv hkv v' (mem_bDelete _ _ _ hv')
        rw [ih (bDelete k s) hagdel]
        unfold bDelete
        rw [List.filter_filter]
        refine List.filter_congr ?_
        intro kv hkv
        by_cases hk : kv.1 = k
        · have : kv.2 = v := hag (k, v) (List.mem_cons_self _ _) kv.2 (by rw [← hk]; exact hkv)
          simp [hk, this, isOldVal, hv, ht]
        · have hbeq : (kv.1 == k) = false := beq_eq_false_iff_ne.mpr hk
          simp [hbeq, hk]
      · rw [show sweep cutoff ((k, v) :: rest) s = sweep cutoff rest s by
          simp [sweep, hv, ht]]
        rw [ih s hagrest]
        refine List.filter_congr ?_
        intro kv hkv
        by_cases hk : kv.1 = k
        · have : kv.2 = v := hag (k, v) (List.mem_cons_self _ _) kv.2 (by rw [← hk]; exact hkv)
          simp [this, isOldVal, hv, ht]
        · have hbeq : (kv.1 == k) = false := beq_eq_false_iff_ne.mpr hk
          simp [hbeq, hk]

theorem cleanup_store_eq (parsedCutoff : Option Int) (now : Int) (s : Store)
    (h : NodupKeys s) :
    (cleanupOldRecords parsedCutoff now s).2.2 =
      s.filter (fun kv =>
        !isOldVal (parsedCutoff.getD (now - hours24)) kv.2) := by
  unfold cleanupOldRecords
  rw [sweep_snd _ s s (by
    intro kv hkv v' hv'
    exact (nodupKeys_unique s h kv.1 v' kv.2 hv' (by
      cases kv; exact hkv)).symm ▸ rfl)]
  · refine List.filter_congr ?_
    intro kv hkv
    have : kv.1 ∈ s.map Prod.fst := List.mem_map_of_mem Prod.fst hkv
    simp [this]

theorem dataMetricsCounts_eq (s : Store) :
    dataMetricsCounts s = (totalCount s, processedCount s, pendingCount s) := by
  induction s with
  | nil => rfl
  | cons kv rest ih =>
    obtain ⟨k, v⟩ := kv
    have hstep : dataMetricsCounts ((k, v) :: rest) =
        match unmarshal v with
        | none => dataMetricsCounts rest
        | some r =>
          ((dataMetricsCounts rest).1 + 1,
            if r.Processed then (dataMetricsCounts rest).2.1 + 1
            else (dataMetricsCounts rest).2.1,
            if r.Processed then (dataMetricsCounts rest).2.2
            else (dataMetricsCounts rest).2.2 + 1) := rfl
    rw [hstep, ih]
    unfold totalCount processedCount pendingCount
    rw [List.countP_cons, List.countP_cons, List.countP_cons]
    cases hv : unmarshal v with
    | none => simp [hv, isPendingVal, isProcessedVal]
    | some r =>
      by_cases hp : r.Processed <;> simp [hv, hp, isPendingVal, isProcessedVal]

/-! ### Replacement and insertion lemmas for `bPut` -/

theorem mem_bPut_of_ne (kv : String × StoredVal) (k : String) (v : StoredVal) :
    ∀ s : Store, kv ∈ s → kv.1 ≠ k → kv ∈ bPut k v s := by
  intro s
  induction s with
  | nil => intro h; cases h
  | cons kv0 rest ih =>
    obtain ⟨k0, w⟩ := kv0
    intro hmem hne
    by_cases h1 : k < k0
    · rw [show bPut k v ((k0, w) :: rest) = (k, v) :: (k0, w) :: rest from by
        simp [bPut, h1]]
      exact List.mem_cons_of_mem _ hmem
    · by_cases h2 : k = k0
      · subst h2
        rw [show bPut k v ((k, w) :: rest) = (k, v) :: rest from by
          simp [bPut, h1]]
        rcases List.mem_cons.mp hmem with heq | ht
        · exact absurd (congrArg Prod.fst heq) hne
        · exact List.mem_cons_of_mem _ ht
      · rw [show bPut k v ((k0, w) :: rest) = (k0, w) :: bPut k v rest from by
          simp [bPut, h1, h2]]
        rcases List.mem_cons.mp hmem with heq | ht
        · exact heq ▸ List.mem_cons_self _ _
        · exact List.mem_cons_of_mem _ (ih ht hne)

theorem SortedKeys_bPut (k : String) (v : StoredVal) :
    ∀ s : Store, SortedKeys s → SortedKeys (bPut k v s) := by
  intro s
  induction s with
  | nil =>
    intro _
    simp [bPut, SortedKeys]
  | cons kv0 rest ih =>
    obtain ⟨k0, w⟩ := kv0
    intro hs
    have hp := List.pairwise_cons.mp hs
    by_cases h1 : k < k0
    · rw [show bPut k v ((k0, w) :: rest) = (k, v) :: (k0, w) :: rest from by
        simp [bPut, h1]]
      refine List.pairwise_cons.mpr ⟨?_, hs⟩
      intro b hb
      rcases List.mem_cons.mp hb with rfl | hb'
      · exact h1
      · exact lt_trans h1 (hp.1 b hb')
    · by_cases h2 : k = k0
      · subst h2
        rw [show bPut k v ((k, w) :: rest) = (k, v) :: rest from by
          simp [bPut, h1]]
        exact List.pairwise_cons.mpr ⟨hp.1, hp.2⟩
      · rw [show bPut k v ((k0, w) :: rest) = (k0, w) :: bPut k v rest from by
          simp [bPut, h1, h2]]
        refine List.pairwise_cons.mpr ⟨?_, ih hp.2⟩
        intro b hb
        rcases mem_bPut b k v rest hb with rfl | hb'
        · exact lt_of_le_of_ne (not_lt.mp h1) (Ne.symm h2)
        · exact hp.1 b hb'

theorem countP_bPut_replace (p : String × StoredVal → Bool) (k : String)
    (v0 v : StoredVal) :
    ∀ s : Store, SortedKeys s → (k, v0) ∈ s →
    (bPut k v s).countP p + (if p (k, v0) then 1 else 0) =
      s.countP p + (if p (k, v) then 1 else 0) := by
  intro s
  induction s with
  | nil => intro _ h; cases h
  | cons kv0 rest ih =>
    obtain ⟨k0, w⟩ := kv0
    intro hs hmem
    have hp := List.pairwise_cons.mp hs
    rcases List.mem_cons.mp hmem with he | ht
    · injection he with h1 h2
      subst h1
      subst h2
      rw [show bPut k v ((k, v0) :: rest) = (k, v) :: rest from by
        simp [bPut, lt_irrefl]]
      rw [List.countP_cons, List.countP_cons]
      cases hpv : p (k, v) <;> cases hpv0 : p (k, v0) <;> simp [hpv, hpv0] <;> omega
    · have hk0k : k0 < k := hp.1 (k, v0) ht
      have hnlt : ¬ k < k0 := lt_asymm hk0k
      have hne : ¬ k = k0 := ne_of_gt hk0k
      rw [show bPut k v ((k0, w) :: rest) = (k0, w) :: bPut k v rest from by
        simp [bPut, hnlt, hne]]
      rw [List.countP_cons, List.countP_cons]
      have := ih hp.2 ht
      omega

/-! ### Pending records and their store entries -/

theorem mem_pendingList (s : Store) (r : DataRecord) (h : r ∈ pendingList s) :
    ∃ kv ∈ s, kv.2 = StoredVal.good r ∧ r.Processed = false := by
  unfold pendingList at h
  obtain ⟨kv, hkv, hf⟩ := List.mem_filterMap.mp h
  cases hkv2 : kv.2 with
  | corrupt b => simp [hkv2, unmarshal] at hf
  | good r0 =>
    simp only [hkv2, unmarshal] at hf
    by_cases hp : r0.Processed
    · simp [hp] at hf
    · simp [hp] at hf
      subst hf
      exact ⟨kv, hkv, hkv2, Bool.not_eq_true r0.Processed ▸ hp⟩

theorem pendingList_entry (s : Store) (hid : IdKeyed s) (r : DataRecord)
    (h : r ∈ pendingList s) :
    (r.ID, StoredVal.good r) ∈ s ∧ r.Processed = false := by
  obtain ⟨kv, hkv, hv, hp⟩ := mem_pendingList s r h
  have hid' : r.ID = kv.1 := hid kv hkv r (by rw [hv]; rfl)
  have hkveq : kv = (r.ID, StoredVal.good r) := by
    obtain ⟨a, b⟩ := kv
    simp only at hv hid'
    simp [Prod.mk.injEq, hv, hid'.symm]
  exact ⟨hkveq ▸ hkv, hp⟩

theorem pendingList_ids_sublist : ∀ s : Store, IdKeyed s →
    ((pendingList s).map (fun r => r.ID)).Sublist (s.map Prod.fst) := by
  intro s
  induction s with
  | nil =>
    intro _
    simp [pendingList]
  | cons kv rest ih =>
    intro hid
    have hidr : IdKeyed rest := fun kv' h' r hr =>
      hid kv' (List.mem_cons_of_mem _ h') r hr
    cases hv : unmarshal kv.2 with
    | none =>
      rw [show pendingList (kv :: rest) = pendingList rest from by
        simp [pendingList, hv]]
      rw [List.map_cons]
      exact List.Sublist.cons _ (ih hidr)
    | some r =>
      by_cases hp : r.Processed
      · rw [show pendingList (kv :: rest) = pendingList rest from by
          simp [pendingList, hv, hp]]
        rw [List.map_cons]
        exact List.Sublist.cons _ (ih hidr)
      · rw [show pendingList (kv :: rest) = r :: pendingList rest from by
          simp [pendingList, hv, hp]]
        have hidk : r.ID = kv.1 := hid kv (List.mem_cons_self _ _) r hv
        rw [List.map_cons, List.map_cons, hidk]
        exact List.Sublist.cons₂ _ (ih hidr)

theorem sortedKeys_nodupKeys : ∀ s : Store, SortedKeys s → NodupKeys s := by
  intro s
  induction s with
  | nil =>
    intro _
    simp [NodupKeys]
  | cons kv rest ih =>
    intro h
    have hp := List.pairwise_cons.mp h
    unfold NodupKeys
    rw [List.map_cons, List.nodup_cons]
    exact ⟨fun hcon => by
      obtain ⟨kv', hkv', heq⟩ := List.mem_map.mp hcon
      exact (ne_of_gt (hp.1 kv' hkv')) heq, ih hp.2⟩

/-! ### The marking loop: counts and frame -/

theorem markRecords_spec (nows : Nat → Int) (sel : List DataRecord) :
    ∀ (i : Nat) (s : Store), SortedKeys s →
    (∀ r ∈ sel, (r.ID, StoredVal.good r) ∈ s) →
    (∀ r ∈ sel, r.Processed = false) →
    (sel.map (fun r => r.ID)).Nodup →
    pendingCount (markRecords nows sel i s) + sel.length = pendingCount s ∧
    processedCount (markRecords nows sel i s) = processedCount s + sel.length ∧
    (∀ kv ∈ s, kv.1 ∉ sel.map (fun r => r.ID) → kv ∈ markRecords nows sel i s) := by
  induction sel with
  | nil =>
    intro i s _ _ _ _
    exact ⟨by simp [markRecords], by simp [markRecords],
      by intro kv hkv _; simpa [markRecords] using hkv⟩
  | cons r rs ih =>
    intro i s hs hin hpend hnodup
    have hmem : (r.ID, StoredVal.good r) ∈ s := hin r (List.mem_cons_self _ _)
    have hrp : r.Processed = false := hpend r (List.mem_cons_self _ _)
    have hstep : markRecords nows (r :: rs) i s =
        markRecords nows rs (i + 1)
          (bPut r.ID (.good (markProcessed r (nows i))) s) := rfl
    have hpc := countP_bPut_replace (fun kv => isPendingVal kv.2) r.ID
      (StoredVal.good r) (.good (markProcessed r (nows i))) s hs hmem
    have hqc := countP_bPut_replace (fun kv => isProcessedVal kv.2) r.ID
      (StoredVal.good r) (.good (markProcessed r (nows i))) s hs hmem
    have hpv : isPendingVal (StoredVal.good r) = true := by
      simp [isPendingVal, unmarshal, hrp]
    have hpm : isPendingVal (StoredVal.good (markProcessed r (nows i))) = false := by
      simp [isPendingVal, unmarshal, markProcessed]
    have hqv : isProcessedVal (StoredVal.good r) = false := by
      simp [isProcessedVal, unmarshal, hrp]
    have hqm : isProcessedVal (StoredVal.good (markProcessed r (nows i))) = true := by
      simp [isProcessedVal, unmarshal, markProcessed]
    simp [hpv, hpm, hqv, hqm] at hpc hqc
    have hs1 : SortedKeys (bPut r.ID (.good (markProcessed r (nows i))) s) :=
      SortedKeys_bPut _ _ s hs
    have hids : r.ID ∉ rs.map (fun r => r.ID) :=
      (List.nodup_cons.mp hnodup).1
    have hin1 : ∀ r' ∈ rs,
        (r'.ID, StoredVal.good r') ∈ bPut r.ID (.good (markProcessed r (nows i))) s := by
      intro r' hr'
      refine mem_bPut_of_ne _ _ _ s (hin r' (List.mem_cons_of_mem _ hr')) ?_
      intro hcon
      exact hids (hcon ▸ List.mem_map_of_mem (fun r => r.ID) hr')
    obtain ⟨ihp, ihq, ihf⟩ := ih (i + 1) _ hs1 hin1
      (fun r' hr' => hpend r' (List.mem_cons_of_mem _ hr'))
      (List.nodup_cons.mp hnodup).2
    refine ⟨?_, ?_, ?_⟩
    · rw [hstep]
      unfold pendingCount at ihp ⊢
      simp only [List.length_cons]
      omega
    · rw [hstep]
      unfold processedCount at ihq ⊢
      simp only [List.length_cons]
      omega
    · intro kv hkv hnot
      rw [List.map_cons, List.mem_cons] at hnot
      push_neg at hnot
      rw [hstep]
      exact ihf kv (mem_bPut_of_ne _ _ _ s hkv hnot.1) hnot.2

/-! ### Lookup, marking and sweeping: structural lemmas -/

theorem bGet_mem : ∀ (s : Store) (k : String) (v : StoredVal),
    bGet k s = some v → (k, v) ∈ s := by
  intro s
  induction s with
  | nil => intro k v h; cases h
  | cons kv0 rest ih =>
    obtain ⟨k0, w⟩ := kv0
    intro k v h
    simp only [bGet] at h
    by_cases hk : k = k0
    · rw [if_pos hk] at h
      injection h with h
      rw [hk, h]
      exact List.mem_cons_self _ _
    · rw [if_neg hk] at h
      exact List.mem_cons_of_mem _ (ih k v h)

theorem markRecords_sorted (nows : Nat → Int) : ∀ (sel : List DataRecord)
    (i : Nat) (s : Store), SortedKeys s → SortedKeys (markRecords nows sel i s) := by
  intro sel
  induction sel with
  | nil => intro i s hs; exact hs
  | cons r rs ih =>
    intro i s hs
    exact ih (i + 1) _ (SortedKeys_bPut _ _ s hs)

theorem mem_markRecords (nows : Nat → Int) : ∀ (sel : List DataRecord)
    (i : Nat) (s : Store) (kv : String × StoredVal),
    kv ∈ markRecords nows sel i s →
    (∃ r t, kv = (r.ID, StoredVal.good (markProcessed r t))) ∨ kv ∈ s := by
  intro sel
  induction sel with
  | nil => intro i s kv h; exact .inr h
  | cons r rs ih =>
    intro i s kv h
    rcases ih (i + 1) _ kv h with hm | hm
    · exact .inl hm
    · rcases mem_bPut kv _ _ s hm with heq | hmem
      · exact .inl ⟨r, nows i, heq⟩
      · exact .inr hmem

theorem bGet_markRecords (nows : Nat → Int) : ∀ (sel : List DataRecord)
    (i : Nat) (s : Store) (k : String),
    bGet k (markRecords nows sel i s) = bGet k s ∨
    ∃ r0 t, bGet k (markRecords nows sel i s) =
      some (StoredVal.good (markProcessed r0 t)) := by
  intro sel
  induction sel with
  | nil => intro i s k; exact .inl rfl
  | cons r rs ih =>
    intro i s k
    rcases ih (i + 1) (bPut r.ID (.good (markProcessed r (nows i))) s) k with h | h
    · by_cases hk : k = r.ID
      · refine .inr ⟨r, nows i, ?_⟩
        rw [show markRecords nows (r :: rs) i s =
          markRecords nows rs (i + 1)
            (bPut r.ID (.good (markProcessed r (nows i))) s) from rfl]
        rw [h, hk]
        exact bGet_bPut_self _ _ s
      · refine .inl ?_
        rw [show markRecords nows (r :: rs) i s =
          markRecords nows rs (i + 1)
            (bPut r.ID (.good (markProcessed r (nows i))) s) from rfl]
        rw [h]
        exact bGet_bPut_ne k r.ID _ s hk
    · exact .inr h

theorem sweep_sublist (cutoff : Int) : ∀ (l : List (String × StoredVal))
    (s : Store), ((sweep cutoff l s).2).Sublist s := by
  intro l
  induction l with
  | nil => intro s; exact List.Sublist.refl s
  | cons hd rest ih =>
    obtain ⟨k, v⟩ := hd
    intro s
    cases hv : unmarshal v with
    | none =>
      rw [show sweep cutoff ((k, v) :: rest) s = sweep cutoff rest s from by
        simp [sweep, hv]]
      exact ih s
    | some r =>
      by_cases ht : r.Timestamp < cutoff
      · rw [show (sweep cutoff ((k, v) :: rest) s).2 =
            (sweep cutoff rest (bDelete k s)).2 from by simp [sweep, hv, ht]]
        exact (ih (bDelete k s)).trans (List.filter_sublist s)
      · rw [show sweep cutoff ((k, v) :: rest) s = sweep cutoff rest s from by
          simp [sweep, hv, ht]]
        exact ih s

theorem reachable_sorted (P : DataRecord → Prop) (s : Store)
    (h : Reachable P s) : SortedKeys s := by
  induction h with
  | init => simp [SortedKeys]
  | @step s1 s2 hr hstep ih =>
    cases hstep with
    | create fid now input hfresh hP => exact SortedKeys_bPut _ _ _ ih
    | batch bs nows =>
      by_cases he : (selectPending bs s1).isEmpty
      · rw [show processPendingRecords bs nows s1 = s1 from by
          simp [processPendingRecords, he]]
        exact ih
      · rw [show processPendingRecords bs nows s1 =
            markRecords nows (selectPending bs s1) 0 s1 from by
          simp [processPendingRecords, he]]
        exact markRecords_sorted _ _ _ _ ih
    | jobRun nows =>
      by_cases he : (selectPending 20 s1).isEmpty
      · rw [show processPendingRecords 20 nows s1 = s1 from by
          simp [processPendingRecords, he]]
        exact ih
      · rw [show processPendingRecords 20 nows s1 =
            markRecords nows (selectPending 20 s1) 0 s1 from by
          simp [processPendingRecords, he]]
        exact markRecords_sorted _ _ _ _ ih
    | cleanup pc now => exact List.Pairwise.sublist (sweep_sublist _ _ _) ih

/-! ### Claim theorems -/

/-- C9: for every request body, `createRecordHandler` overwrites any
client-supplied id, timestamp and processed value — the returned record
carries the generated `freshId`, the server time `now` and
`Processed = false`, no matter what the body contained — while the
client's type and data fields are stored verbatim, and the record is
persisted under its fresh id exactly as returned. -/
theorem createRecordHandler_overrides_fields (freshId : String) (now : Int)
    (input : DataRecord) (s : Store) :
    ((createRecordHandler freshId now input s).1.ID = freshId ∧
      (createRecordHandler freshId now input s).1.Timestamp = now ∧
      (createRecordHandler freshId now input s).1.Processed = false) ∧
    ((createRecordHandler freshId now input s).1.Typ = input.Typ ∧
      (createRecordHandler freshId now input s).1.Data = input.Data) ∧
    bGet freshId (createRecordHandler freshId now input s).2 =
      some (.good (createRecordHandler freshId now input s).1) := by
  refine ⟨⟨rfl, rfl, rfl⟩, ⟨rfl, rfl⟩, ?_⟩
  exact bGet_bPut_self freshId _ s

/-- C8: round-trip — a record written via `createRecordHandler` and then
read back by its generated id via `getRecordHandler` is returned intact:
the read yields exactly the record value `createRecordHandler` returned,
so every field (id, type, payload, timestamp, processed, processedAt)
is identical. -/
theorem create_then_get_roundtrip (freshId : String) (now : Int)
    (input : DataRecord) (s : Store) :
    getRecordHandler freshId (createRecordHandler freshId now input s).2 =
      some (createRecordHandler freshId now input s).1 := by
  simp [getRecordHandler, createRecordHandler, bGet_bPut_self, unmarshal]

/-- C7: when the store holds no pending record, a Batch Processor
invocation is a no-op — `processPendingRecords` returns the store
unchanged (the Go function selects an empty batch and returns
immediately; no error path is reachable, as the scan transaction only
fails on storage-medium errors, which are outside the model). -/
theorem processPendingRecords_no_pending_noop (batchSize : Int)
    (nows : Nat → Int) (s : Store) (h : pendingCount s = 0) :
    processPendingRecords batchSize nows s = s := by
  have h1 : pendingList s = [] := by
    rw [pendingCount_eq_length] at h
    exact List.length_eq_zero.mp h
  unfold processPendingRecords selectPending
  rw [selectPendingAux_eq_take, h1]
  simp

/-- C7 witness: a concrete store holding one processed record and one
corrupt entry has no pending record, and a batch invocation with
`batchSize = 10` leaves it unchanged. -/
theorem processPendingRecords_no_pending_noop_witness :
    pendingCount [("k1", StoredVal.good
        { ID := "k1", Typ := "metric", Data := [("a", "b")], Timestamp := 5,
          Processed := true, ProcessedAt := some 7 }),
      ("k2", StoredVal.corrupt "oops")] = 0 ∧
    processPendingRecords 10 (fun _ => 0)
      [("k1", StoredVal.good
        { ID := "k1", Typ := "metric", Data := [("a", "b")], Timestamp := 5,
          Processed := true, ProcessedAt := some 7 }),
      ("k2", StoredVal.corrupt "oops")] =
      [("k1", StoredVal.good
        { ID := "k1", Typ := "metric", Data := [("a", "b")], Timestamp := 5,
          Processed := true, ProcessedAt := some 7 }),
      ("k2", StoredVal.corrupt "oops")] :=
  ⟨by decide, processPendingRecords_no_pending_noop 10 (fun _ => 0) _ (by decide)⟩

/-- C5: `cleanupOldRecords` reports the effective cutoff — the parsed
`cutoff` parameter, or `now − 24h` when it is absent or unparseable —
retains exactly the entries that are not strictly older than the cutoff
(corrupt entries, having no timestamp, are retained), and reports as
deleted count the number of records with timestamp strictly before the
cutoff. -/
theorem cleanupOldRecords_spec (parsedCutoff : Option Int) (now : Int)
    (s : Store) (h : NodupKeys s) :
    (cleanupOldRecords parsedCutoff now s).2.1 =
      parsedCutoff.getD (now - hours24) ∧
    (cleanupOldRecords parsedCutoff now s).2.2 =
      s.filter (fun kv => !isOldVal (parsedCutoff.getD (now - hours24)) kv.2) ∧
    (cleanupOldRecords parsedCutoff now s).1 =
      s.countP (fun kv => isOldVal (parsedCutoff.getD (now - hours24)) kv.2) := by
  refine ⟨rfl, cleanup_store_eq parsedCutoff now s h, ?_⟩
  unfold cleanupOldRecords
  exact sweep_fst _ s s

/-- C5 witness: on a concrete three-entry store (one record older than
the explicit cutoff 50, one newer, one corrupt entry), cleanup reports
cutoff 50, deletes exactly the old record, and retains the other two
entries. -/
theorem cleanupOldRecords_spec_witness :
    NodupKeys [("a", StoredVal.good
        { ID := "a", Typ := "t", Data := [], Timestamp := 10,
          Processed := false, ProcessedAt := none }),
      ("b", StoredVal.good
        { ID := "b", Typ := "t", Data := [], Timestamp := 100,
          Processed := false, ProcessedAt := none }),
      ("c", StoredVal.corrupt "junk")] ∧
    ((cleanupOldRecords (some 50) 1000 [("a", StoredVal.good
        { ID := "a", Typ := "t", Data := [], Timestamp := 10,
          Processed := false, ProcessedAt := none }),
      ("b", StoredVal.good
        { ID := "b", Typ := "t", Data := [], Timestamp := 100,
          Processed := false, ProcessedAt := none }),
      ("c", StoredVal.corrupt "junk")]).2.1 = (some (50 : Int)).getD (1000 - hours24) ∧
    (cleanupOldRecords (some 50) 1000 [("a", StoredVal.good
        { ID := "a", Typ := "t", Data := [], Timestamp := 10,
          Processed := false, ProcessedAt := none }),
      ("b", StoredVal.good
        { ID := "b", Typ := "t", Data := [], Timestamp := 100,
          Processed := false, ProcessedAt := none }),
      ("c", StoredVal.corrupt "junk")]).2.2 =
      List.filter (fun kv => !isOldVal ((some (50 : Int)).getD (1000 - hours24)) kv.2)
        [("a", StoredVal.good
          { ID := "a", Typ := "t", Data := [], Timestamp := 10,
            Processed := false, ProcessedAt := none }),
        ("b", StoredVal.good
          { ID := "b", Typ := "t", Data := [], Timestamp := 100,
            Processed := false, ProcessedAt := none }),
        ("c", StoredVal.corrupt "junk")] ∧
    (cleanupOldRecords (some 50) 1000 [("a", StoredVal.good
        { ID := "a", Typ := "t", Data := [], Timestamp := 10,
          Processed := false, ProcessedAt := none }),
      ("b", StoredVal.good
        { ID := "b", Typ := "t", Data := [], Timestamp := 100,
          Processed := false, ProcessedAt := none }),
      ("c", StoredVal.corrupt "junk")]).1 =
      List.countP (fun kv => isOldVal ((some (50 : Int)).getD (1000 - hours24)) kv.2)
        [("a", StoredVal.good
          { ID := "a", Typ := "t", Data := [], Timestamp := 10,
            Processed := false, ProcessedAt := none }),
        ("b", StoredVal.good
          { ID := "b", Typ := "t", Data := [], Timestamp := 100,
            Processed := false, ProcessedAt := none }),
        ("c", StoredVal.corrupt "junk")]) :=
  ⟨by decide, cleanupOldRecords_spec (some 50) 1000 _ (by decide)⟩

/-- C6: cleanup is idempotent for a fixed cutoff — running
`cleanupOldRecords` again with the same cutoff parameter and the same
reference time on the store the first run produced deletes zero records,
reports the same effective cutoff, and leaves the store unchanged. -/
theorem cleanupOldRecords_idempotent (parsedCutoff : Option Int) (now : Int)
    (s : Store) (h : NodupKeys s) :
    cleanupOldRecords parsedCutoff now (cleanupOldRecords parsedCutoff now s).2.2 =
      (0, (cleanupOldRecords parsedCutoff now s).2.1,
        (cleanupOldRecords parsedCutoff now s).2.2) := by
  have h1 : (cleanupOldRecords parsedCutoff now s).2.2 =
      s.filter (fun kv => !isOldVal (parsedCutoff.getD (now - hours24)) kv.2) :=
    cleanup_store_eq parsedCutoff now s h
  have hnd1 : NodupKeys (cleanupOldRecords parsedCutoff now s).2.2 := by
    rw [h1]
    exact ((List.filter_sublist s).map Prod.fst).nodup h
  have hall : ∀ kv ∈ (cleanupOldRecords parsedCutoff now s).2.2,
      isOldVal (parsedCutoff.getD (now - hours24)) kv.2 = false := by
    intro kv hkv
    rw [h1] at hkv
    have := List.of_mem_filter hkv
    simpa using this
  have hfst : (cleanupOldRecords parsedCutoff now
      (cleanupOldRecords parsedCutoff now s).2.2).1 = 0 := by
    unfold cleanupOldRecords
    rw [sweep_fst]
    exact List.countP_eq_zero.mpr (by
      intro kv hkv
      simp [hall kv hkv])
  have hsnd : (cleanupOldRecords parsedCutoff now
      (cleanupOldRecords parsedCutoff now s).2.2).2.2 =
      (cleanupOldRecords parsedCutoff now s).2.2 := by
    rw [cleanup_store_eq parsedCutoff now _ hnd1]
    exact List.filter_eq_self.mpr (by
      intro kv hkv
      simp [hall kv hkv])
  have heta : cleanupOldRecords parsedCutoff now
      (cleanupOldRecords parsedCutoff now s).2.2 =
      ((cleanupOldRecords parsedCutoff now
          (cleanupOldRecords parsedCutoff now s).2.2).1,
        (cleanupOldRecords parsedCutoff now
          (cleanupOldRecords parsedCutoff now s).2.2).2.1,
        (cleanupOldRecords parsedCutoff now
          (cleanupOldRecords parsedCutoff now s).2.2).2.2) := rfl
  rw [heta, hfst, hsnd]
  rfl

/-- C6 witness: on a concrete two-record store with an explicit cutoff,
the second cleanup run deletes nothing and returns the first run's store
and cutoff unchanged. -/
theorem cleanupOldRecords_idempotent_witness :
    NodupKeys [("a", StoredVal.good
        { ID := "a", Typ := "t", Data := [], Timestamp := 10,
          Processed := false, ProcessedAt := none }),
      ("b", StoredVal.good
        { ID := "b", Typ := "t", Data := [], Timestamp := 100,
          Processed := true, ProcessedAt := some 200 })] ∧
    cleanupOldRecords (some 50) 1000
        (cleanupOldRecords (some 50) 1000 [("a", StoredVal.good
          { ID := "a", Typ := "t", Data := [], Timestamp := 10,
            Processed := false, ProcessedAt := none }),
        ("b", StoredVal.good
          { ID := "b", Typ := "t", Data := [], Timestamp := 100,
            Processed := true, ProcessedAt := some 200 })]).2.2 =
      (0, (cleanupOldRecords (some 50) 1000 [("a", StoredVal.good
          { ID := "a", Typ := "t", Data := [], Timestamp := 10,
            Processed := false, ProcessedAt := none }),
        ("b", StoredVal.good
          { ID := "b", Typ := "t", Data := [], Timestamp := 100,
            Processed := true, ProcessedAt := some 200 })]).2.1,
        (cleanupOldRecords (some 50) 1000 [("a", StoredVal.good
          { ID := "a", Typ := "t", Data := [], Timestamp := 10,
            Processed := false, ProcessedAt := none }),
        ("b", StoredVal.good
          { ID := "b", Typ := "t", Data := [], Timestamp := 100,
            Processed := true, ProcessedAt := some 200 })]).2.2) :=
  ⟨by decide, cleanupOldRecords_idempotent (some 50) 1000 _ (by decide)⟩

/-- C10: a corrupt stored value — one whose bytes fail to deserialize —
is never selected by the batch fetch, never counted by the metrics
aggregation, never counted as deleted by cleanup, and survives the
cleanup sweep; each operation simply skips it (the Go loops `continue`
past `json.Unmarshal` failures, so no error is returned on account of
such an entry). -/
theorem corrupt_entries_tolerated (batchSize : Int) (parsedCutoff : Option Int)
    (now : Int) (s₁ s₂ : Store) (k b : String)
    (h : NodupKeys (s₁ ++ (k, StoredVal.corrupt b) :: s₂)) :
    selectPending batchSize (s₁ ++ (k, StoredVal.corrupt b) :: s₂) =
      selectPending batchSize (s₁ ++ s₂) ∧
    dataMetricsCounts (s₁ ++ (k, StoredVal.corrupt b) :: s₂) =
      dataMetricsCounts (s₁ ++ s₂) ∧
    (cleanupOldRecords parsedCutoff now (s₁ ++ (k, StoredVal.corrupt b) :: s₂)).1 =
      (cleanupOldRecords parsedCutoff now (s₁ ++ s₂)).1 ∧
    (k, StoredVal.corrupt b) ∈
      (cleanupOldRecords parsedCutoff now
        (s₁ ++ (k, StoredVal.corrupt b) :: s₂)).2.2 := by
  refine ⟨?_, ?_, ?_, ?_⟩
  · unfold selectPending
    rw [selectPendingAux_eq_take, selectPendingAux_eq_take]
    have : pendingList (s₁ ++ (k, StoredVal.corrupt b) :: s₂) =
        pendingList (s₁ ++ s₂) := by
      simp [pendingList, List.filterMap_append, List.filterMap_cons, unmarshal]
    rw [this]
  · rw [dataMetricsCounts_eq, dataMetricsCounts_eq]
    simp [totalCount, processedCount, pendingCount, List.countP_append,
      List.countP_cons, isPendingVal, isProcessedVal, unmarshal]
  · unfold cleanupOldRecords
    rw [sweep_fst, sweep_fst]
    simp [List.countP_append, List.countP_cons, isOldVal, unmarshal]
  · rw [cleanup_store_eq _ _ _ h]
    exact List.mem_filter.mpr ⟨by simp, by simp [isOldVal, unmarshal]⟩

/-- C10 witness: a concrete store with a corrupt entry between two
records — the batch fetch, the metrics counts and the cleanup behave as
if the corrupt entry were absent, and cleanup retains it. -/
theorem corrupt_entries_tolerated_witness :
    NodupKeys ([("a", StoredVal.good
        { ID := "a", Typ := "t", Data := [], Timestamp := 10,
          Processed := false, ProcessedAt := none })] ++
      ("m", StoredVal.corrupt "junk") ::
      [("z", StoredVal.good
        { ID := "z", Typ := "t", Data := [], Timestamp := 100,
          Processed := true, ProcessedAt := some 150 })]) ∧
    (selectPending 10 ([("a", StoredVal.good
        { ID := "a", Typ := "t", Data := [], Timestamp := 10,
          Processed := false, ProcessedAt := none })] ++
      ("m", StoredVal.corrupt "junk") ::
      [("z", StoredVal.good
        { ID := "z", Typ := "t", Data := [], Timestamp := 100,
          Processed := true, ProcessedAt := some 150 })]) =
      selectPending 10 ([("a", StoredVal.good
        { ID := "a", Typ := "t", Data := [], Timestamp := 10,
          Processed := false, ProcessedAt := none })] ++
      [("z", StoredVal.good
        { ID := "z", Typ := "t", Data := [], Timestamp := 100,
          Processed := true, ProcessedAt := some 150 })]) ∧
    dataMetricsCounts ([("a", StoredVal.good
        { ID := "a", Typ := "t", Data := [], Timestamp := 10,
          Processed := false, ProcessedAt := none })] ++
      ("m", StoredVal.corrupt "junk") ::
      [("z", StoredVal.good
        { ID := "z", Typ := "t", Data := [], Timestamp := 100,
          Processed := true, ProcessedAt := some 150 })]) =
      dataMetricsCounts ([("a", StoredVal.good
        { ID := "a", Typ := "t", Data := [], Timestamp := 10,
          Processed := false, ProcessedAt := none })] ++
      [("z", StoredVal.good
        { ID := "z", Typ := "t", Data := [], Timestamp := 100,
          Processed := true, ProcessedAt := some 150 })]) ∧
    (cleanupOldRecords (some 50) 1000 ([("a", StoredVal.good
        { ID := "a", Typ := "t", Data := [], Timestamp := 10,
          Processed := false, ProcessedAt := none })] ++
      ("m", StoredVal.corrupt "junk") ::
      [("z", StoredVal.good
        { ID := "z", Typ := "t", Data := [], Timestamp := 100,
          Processed := true, ProcessedAt := some 150 })])).1 =
      (cleanupOldRecords (some 50) 1000 ([("a", StoredVal.good
        { ID := "a", Typ := "t", Data := [], Timestamp := 10,
          Processed := false, ProcessedAt := none })] ++
      [("z", StoredVal.good
        { ID := "z", Typ := "t", Data := [], Timestamp := 100,
          Processed := true, ProcessedAt := some 150 })])).1 ∧
    ("m", StoredVal.corrupt "junk") ∈
      (cleanupOldRecords (some 50) 1000 ([("a", StoredVal.good
        { ID := "a", Typ := "t", Data := [], Timestamp := 10,
          Processed := false, ProcessedAt := none })] ++
      ("m", StoredVal.corrupt "junk") ::
      [("z", StoredVal.good
        { ID := "z", Typ := "t", Data := [], Timestamp := 100,
          Processed := true, ProcessedAt := some 150 })])).2.2) :=
  ⟨by decide, corrupt_entries_tolerated 10 (some 50) 1000 _ _ "m" "junk" (by decide)⟩

/-- C2: for every well-formed store and positive `batchSize` (with every
per-record persistence succeeding, as the model assumes), one Batch
Processor invocation (i) selects the first `batchSize` pending records in
key order, stopping the scan once the batch is full, (ii) selects exactly
`min batchSize (number pending)` records, all previously pending,
(iii) marks exactly that many pending records processed — the pending
count drops by `min batchSize (pending)` and the processed count rises by
the same amount — and (iv) leaves every entry whose key is not among the
selected records' ids untouched, so at most `batchSize`
previously-pending records are touched. -/
theorem processPendingRecords_batch_spec (batchSize : Int) (nows : Nat → Int)
    (s : Store) (hbs : 0 < batchSize) (hwf : WFStore s) :
    selectPending batchSize s = (pendingList s).take batchSize.toNat ∧
    (selectPending batchSize s).length = min batchSize.toNat (pendingCount s) ∧
    (∀ r ∈ selectPending batchSize s, r.Processed = false) ∧
    pendingCount (processPendingRecords batchSize nows s) +
      min batchSize.toNat (pendingCount s) = pendingCount s ∧
    processedCount (processPendingRecords batchSize nows s) =
      processedCount s + min batchSize.toNat (pendingCount s) ∧
    (∀ kv ∈ s, (∀ r ∈ selectPending batchSize s, r.ID ≠ kv.1) →
      kv ∈ processPendingRecords batchSize nows s) := by
  obtain ⟨hsorted, hid⟩ := hwf
  have htake : selectPending batchSize s = (pendingList s).take batchSize.toNat := by
    unfold selectPending
    exact selectPendingAux_eq_take _ _
  have hlen : (selectPending batchSize s).length =
      min batchSize.toNat (pendingCount s) := by
    rw [htake, List.length_take, pendingCount_eq_length]
  have hselsub : ∀ r ∈ selectPending batchSize s, r ∈ pendingList s := by
    intro r hr
    rw [htake] at hr
    exact List.take_subset _ _ hr
  have hselpend : ∀ r ∈ selectPending batchSize s, r.Processed = false :=
    fun r hr => (pendingList_entry s hid r (hselsub r hr)).2
  have hselmem : ∀ r ∈ selectPending batchSize s, (r.ID, StoredVal.good r) ∈ s :=
    fun r hr => (pendingList_entry s hid r (hselsub r hr)).1
  have hplnodup : ((pendingList s).map (fun r => r.ID)).Nodup :=
    (pendingList_ids_sublist s hid).nodup (sortedKeys_nodupKeys s hsorted)
  have hnodup : ((selectPending batchSize s).map (fun r => r.ID)).Nodup := by
    rw [htake, List.map_take]
    exact (List.take_sublist _ _).nodup hplnodup
  by_cases hempty : (selectPending batchSize s).isEmpty
  · have hsel0 : selectPending batchSize s = [] := by
      rwa [List.isEmpty_iff] at hempty
    have hbty : 0 < batchSize.toNat := by omega
    have hpl : pendingList s = [] := by
      rw [htake] at hsel0
      rcases List.take_eq_nil_iff.mp hsel0 with h | h
      · exact absurd h (by omega)
      · exact h
    have hpc0 : pendingCount s = 0 := by
      rw [pendingCount_eq_length, hpl]
      rfl
    have hnoop : processPendingRecords batchSize nows s = s := by
      simp [processPendingRecords, hempty]
    refine ⟨htake, hlen, hselpend, ?_, ?_, ?_⟩
    · rw [hnoop, hpc0]
      simp
    · rw [hnoop, hpc0]
      simp
    · intro kv hkv _
      rw [hnoop]
      exact hkv
  · have hs' : processPendingRecords batchSize nows s =
        markRecords nows (selectPending batchSize s) 0 s := by
      simp [processPendingRecords, hempty]
    obtain ⟨hp, hq, hf⟩ := markRecords_spec nows (selectPending batchSize s) 0 s
      hsorted hselmem hselpend hnodup
    refine ⟨htake, hlen, hselpend, ?_, ?_, ?_⟩
    · rw [hs', ← hlen]
      exact hp
    · rw [hs', hq, hlen]
    · intro kv hkv hne
      rw [hs']
      refine hf kv hkv ?_
      intro hcon
      obtain ⟨r, hr, hreq⟩ := List.mem_map.mp hcon
      exact hne r hr hreq

/-- C2 witness: a concrete store of three pending records processed with
`batchSize = 2` — exactly `min 2 3 = 2` records (the first two in key
order) become processed, and the untouched third entry survives
unchanged. -/
theorem processPendingRecords_batch_spec_witness :
    (0 : Int) < 2 ∧
    WFStore [("a", StoredVal.good
        { ID := "a", Typ := "t", Data := [], Timestamp := 1,
          Processed := false, ProcessedAt := none }),
      ("b", StoredVal.good
        { ID := "b", Typ := "t", Data := [], Timestamp := 2,
          Processed := false, ProcessedAt := none }),
      ("c", StoredVal.good
        { ID := "c", Typ := "t", Data := [], Timestamp := 3,
          Processed := false, ProcessedAt := none })] ∧
    selectPending 2 [("a", StoredVal.good
        { ID := "a", Typ := "t", Data := [], Timestamp := 1,
          Processed := false, ProcessedAt := none }),
      ("b", StoredVal.good
        { ID := "b", Typ := "t", Data := [], Timestamp := 2,
          Processed := false, ProcessedAt := none }),
      ("c", StoredVal.good
        { ID := "c", Typ := "t", Data := [], Timestamp := 3,
          Processed := false, ProcessedAt := none })] =
      (pendingList [("a", StoredVal.good
        { ID := "a", Typ := "t", Data := [], Timestamp := 1,
          Processed := false, ProcessedAt := none }),
      ("b", StoredVal.good
        { ID := "b", Typ := "t", Data := [], Timestamp := 2,
          Processed := false, ProcessedAt := none }),
      ("c", StoredVal.good
        { ID := "c", Typ := "t", Data := [], Timestamp := 3,
          Processed := false, ProcessedAt := none })]).take (2 : Int).toNat ∧
    (selectPending 2 [("a", StoredVal.good
        { ID := "a", Typ := "t", Data := [], Timestamp := 1,
          Processed := false, ProcessedAt := none }),
      ("b", StoredVal.good
        { ID := "b", Typ := "t", Data := [], Timestamp := 2,
          Processed := false, ProcessedAt := none }),
      ("c", StoredVal.good
        { ID := "c", Typ := "t", Data := [], Timestamp := 3,
          Processed := false, ProcessedAt := none })]).length =
      min (2 : Int).toNat (pendingCount [("a", StoredVal.good
        { ID := "a", Typ := "t", Data := [], Timestamp := 1,
          Processed := false, ProcessedAt := none }),
      ("b", StoredVal.good
        { ID := "b", Typ := "t", Data := [], Timestamp := 2,
          Processed := false, ProcessedAt := none }),
      ("c", StoredVal.good
        { ID := "c", Typ := "t", Data := [], Timestamp := 3,
          Processed := false, ProcessedAt := none })]) ∧
    (∀ r ∈ selectPending 2 [("a", StoredVal.good
        { ID := "a", Typ := "t", Data := [], Timestamp := 1,
          Processed := false, ProcessedAt := none }),
      ("b", StoredVal.good
        { ID := "b", Typ := "t", Data := [], Timestamp := 2,
          Processed := false, ProcessedAt := none }),
      ("c", StoredVal.good
        { ID := "c", Typ := "t", Data := [], Timestamp := 3,
          Processed := false, ProcessedAt := none })], r.Processed = false) ∧
    pendingCount (processPendingRecords 2 (fun _ => 9) [("a", StoredVal.good
        { ID := "a", Typ := "t", Data := [], Timestamp := 1,
          Processed := false, ProcessedAt := none }),
      ("b", StoredVal.good
        { ID := "b", Typ := "t", Data := [], Timestamp := 2,
          Processed := false, ProcessedAt := none }),
      ("c", StoredVal.good
        { ID := "c", Typ := "t", Data := [], Timestamp := 3,
          Processed := false, ProcessedAt := none })]) +
      min (2 : Int).toNat (pendingCount [("a", StoredVal.good
        { ID := "a", Typ := "t", Data := [], Timestamp := 1,
          Processed := false, ProcessedAt := none }),
      ("b", StoredVal.good
        { ID := "b", Typ := "t", Data := [], Timestamp := 2,
          Processed := false, ProcessedAt := none }),
      ("c", StoredVal.good
        { ID := "c", Typ := "t", Data := [], Timestamp := 3,
          Processed := false, ProcessedAt := none })]) =
      pendingCount [("a", StoredVal.good
        { ID := "a", Typ := "t", Data := [], Timestamp := 1,
          Processed := false, ProcessedAt := none }),
      ("b", StoredVal.good
        { ID := "b", Typ := "t", Data := [], Timestamp := 2,
          Processed := false, ProcessedAt := none }),
      ("c", StoredVal.good
        { ID := "c", Typ := "t", Data := [], Timestamp := 3,
          Processed := false, ProcessedAt := none })] ∧
    processedCount (processPendingRecords 2 (fun _ => 9) [("a", StoredVal.good
        { ID := "a", Typ := "t", Data := [], Timestamp := 1,
          Processed := false, ProcessedAt := none }),
      ("b", StoredVal.good
        { ID := "b", Typ := "t", Data := [], Timestamp := 2,
          Processed := false, ProcessedAt := none }),
      ("c", StoredVal.good
        { ID := "c", Typ := "t", Data := [], Timestamp := 3,
          Processed := false, ProcessedAt := none })]) =
      processedCount [("a", StoredVal.good
        { ID := "a", Typ := "t", Data := [], Timestamp := 1,
          Processed := false, ProcessedAt := none }),
      ("b", StoredVal.good
        { ID := "b", Typ := "t", Data := [], Timestamp := 2,
          Processed := false, ProcessedAt := none }),
      ("c", StoredVal.good
        { ID := "c", Typ := "t", Data := [], Timestamp := 3,
          Processed := false, ProcessedAt := none })] +
        min (2 : Int).toNat (pendingCount [("a", StoredVal.good
        { ID := "a", Typ := "t", Data := [], Timestamp := 1,
          Processed := false, ProcessedAt := none }),
      ("b", StoredVal.good
        { ID := "b", Typ := "t", Data := [], Timestamp := 2,
          Processed := false, ProcessedAt := none }),
      ("c", StoredVal.good
        { ID := "c", Typ := "t", Data := [], Timestamp := 3,
          Processed := false, ProcessedAt := none })]) ∧
    (∀ kv ∈ ([("a", StoredVal.good
        { ID := "a", Typ := "t", Data := [], Timestamp := 1,
          Processed := false, ProcessedAt := none }),
      ("b", StoredVal.good
        { ID := "b", Typ := "t", Data := [], Timestamp := 2,
          Processed := false, ProcessedAt := none }),
      ("c", StoredVal.good
        { ID := "c", Typ := "t", Data := [], Timestamp := 3,
          Processed := false, ProcessedAt := none })] : Store),
      (∀ r ∈ selectPending 2 [("a", StoredVal.good
        { ID := "a", Typ := "t", Data := [], Timestamp := 1,
          Processed := false, ProcessedAt := none }),
      ("b", StoredVal.good
        { ID := "b", Typ := "t", Data := [], Timestamp := 2,
          Processed := false, ProcessedAt := none }),
      ("c", StoredVal.good
        { ID := "c", Typ := "t", Data := [], Timestamp := 3,
          Processed := false, ProcessedAt := none })], r.ID ≠ kv.1) →
      kv ∈ processPendingRecords 2 (fun _ => 9) [("a", StoredVal.good
        { ID := "a", Typ := "t", Data := [], Timestamp := 1,
          Processed := false, ProcessedAt := none }),
      ("b", StoredVal.good
        { ID := "b", Typ := "t", Data := [], Timestamp := 2,
          Processed := false, ProcessedAt := none }),
      ("c", StoredVal.good
        { ID := "c", Typ := "t", Data := [], Timestamp := 3,
          Processed := false, ProcessedAt := none })]) :=
  ⟨by decide, by decide,
    processPendingRecords_batch_spec 2 (fun _ => 9) _ (by decide) (by decide)⟩

/-- C1: the claim fails on the code — `processJob` assigns the literal
`20` to the job's `Records` field (`// Simplified for demo` in the Go
source), not the count actually processed. On a store with zero pending
records, the job still completes with `Records = 20`, where the claim
(and spec §4.3, with §9 flagging the constant as a likely defect)
requires `recordsProcessed = 0`. -/
theorem processJob_reports_constant_records :
    pendingCount ([] : Store) = 0 ∧
    jGet "job-1" (processJob "job-1" 99 (fun _ => 0)
        [("job-1",
          { ID := "job-1", Status := "pending", StartTime := 7,
            EndTime := none, Records := 0, Error := "" })] []).1 =
      some
        { ID := "job-1", Status := "completed", StartTime := 7,
          EndTime := some 99, Records := 20, Error := "" } ∧
    (20 : Int) ≠ 0 :=
  ⟨rfl, by decide, by decide⟩

/-- C3 counterexample: the claim as stated is false. `createRecordHandler`
overwrites `ID`, `Timestamp` and `Processed` of the decoded body, but not
`ProcessedAt`; a request body carrying `processed_at` produces — in a
state reachable by one create from the empty store — a stored record with
`Processed = false` and `ProcessedAt` present, violating the claimed
iff-invariant, and the record returned by create also carries the
`ProcessedAt`. -/
theorem create_leaks_processedAt :
    Reachable (fun _ => True)
      (createRecordHandler "id-1" 0
        { ID := "client", Typ := "t", Data := [], Timestamp := 77,
          Processed := true, ProcessedAt := some 5 } []).2 ∧
    (∃ kv ∈ (createRecordHandler "id-1" 0
        { ID := "client", Typ := "t", Data := [], Timestamp := 77,
          Processed := true, ProcessedAt := some 5 } []).2,
      ∃ r, unmarshal kv.2 = some r ∧ r.Processed = false ∧ r.ProcessedAt ≠ none) ∧
    (createRecordHandler "id-1" 0
      { ID := "client", Typ := "t", Data := [], Timestamp := 77,
        Processed := true, ProcessedAt := some 5 } []).1.Processed = false ∧
    (createRecordHandler "id-1" 0
      { ID := "client", Typ := "t", Data := [], Timestamp := 77,
        Processed := true, ProcessedAt := some 5 } []).1.ProcessedAt ≠ none :=
  ⟨Reachable.step Reachable.init (StoreStep.create "id-1" 0 _ [] rfl trivial),
    by decide, by decide, by decide⟩

/-- C3 (amended): provided every create-record request body omits
`processed_at` (its decoded `ProcessedAt` is `none`), every record stored
in a state reachable through the public operations satisfies
`ProcessedAt` present iff `Processed = true`, and every record returned
by such a create has `Processed = false` and no `ProcessedAt`. -/
theorem reachable_processedAt_iff (s : Store)
    (h : Reachable (fun input => input.ProcessedAt = none) s) :
    (∀ kv ∈ s, ∀ r, unmarshal kv.2 = some r →
      (r.ProcessedAt ≠ none ↔ r.Processed = true)) ∧
    (∀ freshId now input s0, input.ProcessedAt = none →
      (createRecordHandler freshId now input s0).1.Processed = false ∧
      (createRecordHandler freshId now input s0).1.ProcessedAt = none) := by
  constructor
  · induction h with
    | init => intro kv hkv; cases hkv
    | @step s1 s2 hr hstep ih =>
      cases hstep with
      | create fid now input hP hfresh =>
        intro kv hkv r hr
        rcases mem_bPut kv _ _ s1 hkv with heq | hmem
        · rw [heq] at hr
          simp only [unmarshal, Option.some.injEq] at hr
          rw [← hr]
          have hPA : input.ProcessedAt = none := by assumption
          simp [hPA]
        · exact ih kv hmem r hr
      | batch bs nows =>
        intro kv hkv r hr
        by_cases he : (selectPending bs s1).isEmpty
        · rw [show processPendingRecords bs nows s1 = s1 from by
            simp [processPendingRecords, he]] at hkv
          exact ih kv hkv r hr
        · rw [show processPendingRecords bs nows s1 =
              markRecords nows (selectPending bs s1) 0 s1 from by
            simp [processPendingRecords, he]] at hkv
          rcases mem_markRecords nows _ 0 s1 kv hkv with ⟨r0, t, heq⟩ | hmem
          · rw [heq] at hr
            simp only [unmarshal, Option.some.injEq] at hr
            rw [← hr]
            simp [markProcessed]
          · exact ih kv hmem r hr
      | jobRun nows =>
        intro kv hkv r hr
        by_cases he : (selectPending 20 s1).isEmpty
        · rw [show processPendingRecords 20 nows s1 = s1 from by
            simp [processPendingRecords, he]] at hkv
          exact ih kv hkv r hr
        · rw [show processPendingRecords 20 nows s1 =
              markRecords nows (selectPending 20 s1) 0 s1 from by
            simp [processPendingRecords, he]] at hkv
          rcases mem_markRecords nows _ 0 s1 kv hkv with ⟨r0, t, heq⟩ | hmem
          · rw [heq] at hr
            simp only [unmarshal, Option.some.injEq] at hr
            rw [← hr]
            simp [markProcessed]
          · exact ih kv hmem r hr
      | cleanup pc now =>
        intro kv hkv r hr
        exact ih kv ((sweep_sublist _ _ _).subset hkv) r hr
  · intro fid now input s0 hPA
    exact ⟨rfl, hPA⟩

/-- C3 (amended) witness: the state reached by one create whose body
omits `processed_at` satisfies the invariant. -/
theorem reachable_processedAt_iff_witness :
    Reachable (fun input => input.ProcessedAt = none)
      (createRecordHandler "a" 5
        { ID := "", Typ := "t", Data := [], Timestamp := 0,
          Processed := false, ProcessedAt := none } []).2 ∧
    ((∀ kv ∈ (createRecordHandler "a" 5
        { ID := "", Typ := "t", Data := [], Timestamp := 0,
          Processed := false, ProcessedAt := none } []).2,
      ∀ r, unmarshal kv.2 = some r →
        (r.ProcessedAt ≠ none ↔ r.Processed = true)) ∧
    (∀ freshId now input s0, input.ProcessedAt = none →
      (createRecordHandler freshId now input s0).1.Processed = false ∧
      (createRecordHandler freshId now input s0).1.ProcessedAt = none)) :=
  ⟨Reachable.step Reachable.init (StoreStep.create "a" 5 _ [] rfl rfl),
    reachable_processedAt_iff _
      (Reachable.step Reachable.init (StoreStep.create "a" 5 _ [] rfl rfl))⟩

/-- C4: no public operation (create, batch processing, job run, cleanup)
ever transitions a stored record's `Processed` field from `true` back to
`false`: for any single operation applied to a reachable store, a record
that was processed and is still present afterwards is still processed.
Chaining this over successive operations gives monotonicity until
deletion, and with it the `false → true` transition can occur at most
once in a record's lifetime. -/
theorem processed_monotone (s s' : Store)
    (hreach : Reachable (fun _ => True) s)
    (hstep : StoreStep (fun _ => True) s s') :
    ∀ k r r', bGet k s = some (StoredVal.good r) → r.Processed = true →
      bGet k s' = some (StoredVal.good r') → r'.Processed = true := by
  intro k r r' hks hrp hks'
  cases hstep with
  | create fid now input hP hfresh =>
    by_cases hk : k = fid
    · subst hk
      rw [hfresh] at hks
      cases hks
    · rw [show bGet k (createRecordHandler fid now input s).2 = bGet k s from
        bGet_bPut_ne k fid _ s hk, hks] at hks'
      injection hks' with h
      injection h with h
      exact h ▸ hrp
  | batch bs nows =>
    by_cases he : (selectPending bs s).isEmpty
    · rw [show processPendingRecords bs nows s = s from by
        simp [processPendingRecords, he], hks] at hks'
      injection hks' with h
      injection h with h
      exact h ▸ hrp
    · rw [show processPendingRecords bs nows s =
          markRecords nows (selectPending bs s) 0 s from by
        simp [processPendingRecords, he]] at hks'
      rcases bGet_markRecords nows (selectPending bs s) 0 s k with hsame | ⟨r0, t, hmk⟩
      · rw [hsame, hks] at hks'
        injection hks' with h
        injection h with h
        exact h ▸ hrp
      · rw [hmk] at hks'
        injection hks' with h
        injection h with h
        rw [← h]
        simp [markProcessed]
  | jobRun nows =>
    by_cases he : (selectPending 20 s).isEmpty
    · rw [show processPendingRecords 20 nows s = s from by
        simp [processPendingRecords, he], hks] at hks'
      injection hks' with h
      injection h with h
      exact h ▸ hrp
    · rw [show processPendingRecords 20 nows s =
          markRecords nows (selectPending 20 s) 0 s from by
        simp [processPendingRecords, he]] at hks'
      rcases bGet_markRecords nows (selectPending 20 s) 0 s k with hsame | ⟨r0, t, hmk⟩
      · rw [hsame, hks] at hks'
        injection hks' with h
        injection h with h
        exact h ▸ hrp
      · rw [hmk] at hks'
        injection hks' with h
        injection h with h
        rw [← h]
        simp [markProcessed]
  | cleanup pc now =>
    have hnd : NodupKeys s := sortedKeys_nodupKeys s (reachable_sorted _ s hreach)
    have hmem' : (k, StoredVal.good r') ∈ s :=
      (sweep_sublist _ _ _).subset (bGet_mem _ k _ hks')
    have hmem : (k, StoredVal.good r) ∈ s := bGet_mem _ k _ hks
    have hgood := nodupKeys_unique s hnd k _ _ hmem hmem'
    injection hgood with h
    exact h ▸ hrp

/-- C4 witness: a record created and then marked processed by a batch
invocation stays processed across a cleanup sweep that retains it. -/
theorem processed_monotone_witness :
    Reachable (fun _ => True)
      (processPendingRecords 10 (fun _ => 7)
        (createRecordHandler "a" 1
          { ID := "", Typ := "t", Data := [], Timestamp := 1,
            Processed := false, ProcessedAt := none } []).2) ∧
    StoreStep (fun _ => True)
      (processPendingRecords 10 (fun _ => 7)
        (createRecordHandler "a" 1
          { ID := "", Typ := "t", Data := [], Timestamp := 1,
            Processed := false, ProcessedAt := none } []).2)
      (cleanupOldRecords (some 0) 100
        (processPendingRecords 10 (fun _ => 7)
          (createRecordHandler "a" 1
            { ID := "", Typ := "t", Data := [], Timestamp := 1,
              Processed := false, ProcessedAt := none } []).2)).2.2 ∧
    (∀ k r r', bGet k (processPendingRecords 10 (fun _ => 7)
        (createRecordHandler "a" 1
          { ID := "", Typ := "t", Data := [], Timestamp := 1,
            Processed := false, ProcessedAt := none } []).2) =
        some (StoredVal.good r) → r.Processed = true →
      bGet k (cleanupOldRecords (some 0) 100
        (processPendingRecords 10 (fun _ => 7)
          (createRecordHandler "a" 1
            { ID := "", Typ := "t", Data := [], Timestamp := 1,
              Processed := false, ProcessedAt := none } []).2)).2.2 =
        some (StoredVal.good r') → r'.Processed = true) :=
  ⟨Reachable.step
      (Reachable.step Reachable.init (StoreStep.create "a" 1 _ [] rfl trivial))
      (StoreStep.batch 10 (fun _ => 7) _),
    StoreStep.cleanup (some 0) 100 _,
    processed_monotone _ _
      (Reachable.step
        (Reachable.step Reachable.init (StoreStep.create "a" 1 _ [] rfl trivial))
        (StoreStep.batch 10 (fun _ => 7) _))
      (StoreStep.cleanup (some 0) 100 _)⟩
